import Mathlib

/-!
Verification development for the Hive-Reporting pipeline
(`src/hive_reporting.py`, class `SIRPPipeline`).

The Python program normalizes raw case records returned by a
case-management API (`_add_record`), buckets them into three recency
windows relative to cutoff dates derived from today's date
(`_fill_day_dicts`), and aggregates the most recent bucket into a
fixed-row counts table (`make_dataframes`), which is then rendered to
spreadsheet sheets (`make_charts`).

The embedding below mirrors the source:

* a raw record is a mapping whose fields may each be absent; reading a
  missing key raises (Python `KeyError`), modelled by the error value
  `MalformedRecordError.keyError`;
* `time.strftime(TIME_FMT, time.gmtime(secs))` is implemented as a
  pure function `strftimeGm` on epoch seconds (gmtime floors the float
  seconds value, hence `Int.fdiv` for the millisecond division);
* the two cutoffs `time.mktime((today - timedelta(days=30)).timetuple())`
  and the 60-day analogue depend on the run date, so `fill_day_dicts`
  takes them as integer epoch-second parameters `c30` and `c60`;
* Python dicts keep insertion order, so a bucket is an ordered
  association list from ingestion index to normalized record.
-/

/-- Raw case record as returned by the case-management API: a mapping whose
fields may each be absent. `createdAt` and `endDate` are epoch milliseconds. -/
structure RawCaseRecord where
  title : Option String
  owner : Option String
  severity : Option Int
  createdAt : Option Int
  endDate : Option Int
  resolutionStatus : Option String
deriving DecidableEq

/-- Failure while reading a raw record: a required mapping key is missing
(Python raises `KeyError`; the specification calls this error kind
`MalformedRecordError`). -/
inductive MalformedRecordError where
  | keyError (missing : String)
deriving DecidableEq

/-- Zero-padded two-digit decimal rendering used by the strftime model. -/
def pad2 (n : Int) : String :=
  if n < 10 then "0" ++ toString n else toString n

/-- Year rendering of strftime's %Y (years in range need no padding). -/
def pad4 (n : Int) : String := toString n

/-- Gregorian civil date `(year, month, day)` from days since the Unix
epoch, the standard days-to-civil conversion; models the date part of
`time.gmtime`. -/
def civilFromDays (z0 : Int) : Int × Int × Int :=
  let z := z0 + 719468
  let era := Int.fdiv z 146097
  let doe := z - era * 146097
  let yoe := Int.fdiv (doe - Int.fdiv doe 1460 + Int.fdiv doe 36524 - Int.fdiv doe 146096) 365
  let y := yoe + era * 400
  let doy := doe - (365 * yoe + Int.fdiv yoe 4 - Int.fdiv yoe 100)
  let mp := Int.fdiv (5 * doy + 2) 153
  let d := doy - Int.fdiv (153 * mp + 2) 5 + 1
  let m := mp + (if mp < 10 then 3 else (-9))
  (y + (if m ≤ 2 then 1 else 0), m, d)

namespace SIRPPipeline

/-- TIME_FMT from the source class. -/
def TIME_FMT : String := "%m/%d/%Y %H:%M:%S"

/-- Models `time.strftime(TIME_FMT, time.gmtime(secs))` for integral
epoch seconds. -/
def strftimeGm (secs : Int) : String :=
  let days := Int.fdiv secs 86400
  let sod := secs - days * 86400
  let ymd := civilFromDays days
  pad2 ymd.2.1 ++ "/" ++ pad2 ymd.2.2 ++ "/" ++ pad4 ymd.1 ++ " " ++
    pad2 (Int.fdiv sod 3600) ++ ":" ++ pad2 (Int.fdiv (Int.emod sod 3600) 60) ++
    ":" ++ pad2 (Int.emod sod 60)

/-- Normalized case record: the value `_add_record` stores in a day dict.
`Closed` and `Resolution` are the two optionally-present keys. -/
structure CaseRecord where
  Name : String
  Owner : String
  Severity : Int
  Created : String
  Closed : Option String
  Resolution : Option String
deriving DecidableEq

/-- A window bucket: insertion-ordered mapping from ingestion index to
normalized record (Python dicts preserve insertion order). -/
abbrev Bucket := List (Nat × CaseRecord)

/-- SIRPPipeline._add_record. Writes the normalized record at `key`.
Reading a missing mapping key fails; in the `endDate`-present,
`resolutionStatus`-absent case Python has already assigned the base
record before the failing `update`, so the base record stays in the
dict while the error propagates. -/
def add_record (days_dict : Bucket) (record : RawCaseRecord) (key : Nat) :
    Bucket × Option MalformedRecordError :=
  match record.title, record.owner, record.severity, record.createdAt with
  | some t, some o, some sev, some ca =>
    let base : CaseRecord :=
      { Name := t, Owner := o, Severity := sev,
        Created := strftimeGm (Int.fdiv ca 1000), Closed := none, Resolution := none }
    (match record.endDate with
     | none => (days_dict ++ [(key, base)], none)
     | some ed =>
       match record.resolutionStatus with
       | some rs =>
         (days_dict ++ [(key, { base with
             Closed := some (strftimeGm (Int.fdiv ed 1000)),
             Resolution := some rs })], none)
       | none =>
         (days_dict ++ [(key, base)],
          some (MalformedRecordError.keyError "resolutionStatus")))
  | none, _, _, _ => (days_dict, some (MalformedRecordError.keyError "title"))
  | _, none, _, _ => (days_dict, some (MalformedRecordError.keyError "owner"))
  | _, _, none, _ => (days_dict, some (MalformedRecordError.keyError "severity"))
  | _, _, _, none => (days_dict, some (MalformedRecordError.keyError "createdAt"))

/-- The comparison `record["createdAt"] / 1000 > cutoff` from
`_fill_day_dicts`: true Python division of the millisecond timestamp by
1000, compared against the epoch-second cutoff returned by `mktime`. -/
def gtCutoff (ms : Int) (cutoff : Int) : Prop :=
  (ms : ℚ) / 1000 > (cutoff : ℚ)

instance (ms cutoff : Int) : Decidable (gtCutoff ms cutoff) :=
  decidable_of_iff (cutoff * 1000 < ms) (by
    unfold gtCutoff
    rw [gt_iff_lt, lt_div_iff₀ (by norm_num : (0 : ℚ) < 1000)]
    exact_mod_cast Iff.rfl)

/-- The three day dicts held by the pipeline object. -/
structure Buckets where
  all30 : Bucket
  all60 : Bucket
  all90 : Bucket
deriving DecidableEq

/-- Loop body of `_fill_day_dicts`: walks the dataset with the running
enumeration index, classifying each record against the two cutoffs and
stopping at the first raised error (Python the exception aborts the loop,
leaving the dicts in their current state). -/
def fillGo (c30 c60 : Int) : List RawCaseRecord → Nat → Buckets →
    Buckets × Option MalformedRecordError
  | [], _, bs => (bs, none)
  | record :: rest, i, bs =>
    match record.createdAt with
    | none => (bs, some (MalformedRecordError.keyError "createdAt"))
    | some ca =>
      if gtCutoff ca c30 then
        match add_record bs.all30 record i with
        | (d, some e) => ({ bs with all30 := d }, some e)
        | (d, none) => fillGo c30 c60 rest (i + 1) { bs with all30 := d }
      else if gtCutoff ca c60 then
        match add_record bs.all60 record i with
        | (d, some e) => ({ bs with all60 := d }, some e)
        | (d, none) => fillGo c30 c60 rest (i + 1) { bs with all60 := d }
      else
        match add_record bs.all90 record i with
        | (d, some e) => ({ bs with all90 := d }, some e)
        | (d, none) => fillGo c30 c60 rest (i + 1) { bs with all90 := d }

/-- SIRPPipeline._fill_day_dicts, with the run-date-dependent cutoffs
`mktime((today - timedelta(days=30)).timetuple())` and the 60-day
analogue passed as the epoch-second parameters `c30` and `c60`. -/
def fill_day_dicts (c30 c60 : Int) (dataset : List RawCaseRecord) :
    Buckets × Option MalformedRecordError :=
  fillGo c30 c60 dataset 0 ⟨[], [], []⟩

/-- All key-record pairs of the three buckets. -/
def allPairs (bs : Buckets) : List (Nat × CaseRecord) :=
  bs.all30 ++ bs.all60 ++ bs.all90

/-- The keys of the three buckets, in bucket order. -/
def bucketKeys (bs : Buckets) : List Nat :=
  (allPairs bs).map Prod.fst

/-- Combined size of the three buckets. -/
def totalLen (bs : Buckets) : Nat :=
  bs.all30.length + bs.all60.length + bs.all90.length

/-- A raw record on which `_add_record` performs no missing-key lookup:
the required fields are present and `resolutionStatus` accompanies
`endDate`. This is the data-model notion of a valid RawCaseRecord. -/
def WellFormed (r : RawCaseRecord) : Prop :=
  r.title.isSome ∧ r.owner.isSome ∧ r.severity.isSome ∧ r.createdAt.isSome ∧
    (r.endDate.isSome → r.resolutionStatus.isSome)

instance (r : RawCaseRecord) : Decidable (WellFormed r) := by
  unfold WellFormed; infer_instance

/-- Row label of the counts frame: pandas index labels here are either
strings or Python ints (`counts_frame_INDEX` mixes both, and pandas- and
Python-equality distinguish `1` from `"1"`). -/
inductive Label where
  | str (s : String)
  | int (n : Int)
deriving DecidableEq

/-- data_frame_INDEX from the source class: the row index given to
`pd.DataFrame(dict, index=...)`, hence the column order of the
transposed per-window frames. -/
def data_frame_INDEX : List String :=
  ["Created", "Severity", "Owner", "Name", "Closed", "Resolution"]

/-- counts_frame_INDEX from the source class: the fixed index of the
counts frame. -/
def counts_frame_INDEX : List Label :=
  [Label.str "totals",
   Label.str "Team.Member",
   Label.str "Team.Member1",
   Label.str "Team.Member2",
   Label.str "Team.Member3",
   Label.str "Team.Member4",
   Label.str "Team.Member5",
   Label.str "Team.Member6",
   Label.str "Duplicated",
   Label.str "TruePositive",
   Label.str "FalsePositive",
   Label.int 1,
   Label.int 2,
   Label.int 3]

/-- One row of the counts frame after `fillna(0)`: the five column cells
(all counts, so naturals). -/
structure CountsRow where
  Created : Nat
  Closed : Nat
  Owner : Nat
  Resolution : Nat
  Severity : Nat
deriving DecidableEq

/-- The cell contents the counts-frame column dicts assign to row label
`l` for a given 30-day bucket, with pandas reindexing against
`counts_frame_INDEX` and `fillna(0)` applied:

* `Created` column is the dict with the single key `totals` mapped to
  `data_frame_30days.count()["Created"]`, the number of non-missing
  `Created` cells, which is the bucket size;
* `Closed` likewise counts the records whose `Closed` key is present;
* `Owner`, `Resolution`, `Severity` are `value_counts()` dicts of the
  respective columns (`value_counts` skips missing cells), so the cell
  at `l` is the number of records whose value equals `l`. -/
def countsRowFor (b30 : Bucket) (l : Label) : CountsRow :=
  { Created := if l = Label.str "totals" then b30.length else 0
    Closed := if l = Label.str "totals" then
        b30.countP (fun p => p.2.Closed.isSome) else 0
    Owner := b30.countP (fun p => decide (Label.str p.2.Owner = l))
    Resolution := b30.countP (fun p => decide (p.2.Resolution.map Label.str = some l))
    Severity := b30.countP (fun p => decide (Label.int p.2.Severity = l)) }

/-- The counts frame built by `make_dataframes` from the 30-day bucket:
`pd.DataFrame(column_dicts, index=counts_frame_INDEX)` keeps exactly the
rows of `counts_frame_INDEX`, then `fillna(0)` zero-fills the cells no
column dict populated. -/
def make_dataframes_counts (b30 : Bucket) : List (Label × CountsRow) :=
  counts_frame_INDEX.map (fun l => (l, countsRowFor b30 l))

/-- Row lookup in a label-indexed frame. -/
def lookupRow (frame : List (Label × CountsRow)) (l : Label) : Option CountsRow :=
  (frame.find? (fun p => decide (p.1 = l))).map Prod.snd

/-- A rendered per-window sheet: the header (column labels) and the rows,
each carrying its index key and its rendered cells. -/
structure Sheet where
  columns : List String
  rows : List (Nat × List String)
deriving DecidableEq

/-- Rendering of one cell of a per-window frame: the record dict is read
at the column label (the frame was built with `index=data_frame_INDEX`
and transposed), and a missing key yields NaN, which `to_excel` writes
as an empty cell (default `na_rep` is the empty string). -/
def cellOf (rec : CaseRecord) : String → String := fun col =>
  if col = "Created" then rec.Created
  else if col = "Severity" then toString rec.Severity
  else if col = "Owner" then rec.Owner
  else if col = "Name" then rec.Name
  else if col = "Closed" then rec.Closed.getD ""
  else if col = "Resolution" then rec.Resolution.getD ""
  else ""

/-- The per-window sheet: `pd.DataFrame(bucket, index=data_frame_INDEX)`
has one column per dict key in insertion order; transposing makes those
the rows and `data_frame_INDEX` the column order. -/
def data_frame_days (b : Bucket) : Sheet :=
  { columns := data_frame_INDEX
    rows := b.map (fun p => (p.1, data_frame_INDEX.map (cellOf p.2))) }

/-- Structural invariant maintained by the bucketing loop: every key is
below the running index, each bucket's key list is strictly increasing,
and the three key lists are pairwise disjoint. -/
def Inv (bs : Buckets) (n : Nat) : Prop :=
  (∀ k ∈ bucketKeys bs, k < n) ∧
  (bs.all30.map Prod.fst).Pairwise (· < ·) ∧
  (bs.all60.map Prod.fst).Pairwise (· < ·) ∧
  (bs.all90.map Prod.fst).Pairwise (· < ·) ∧
  (bs.all30.map Prod.fst).Disjoint (bs.all60.map Prod.fst) ∧
  (bs.all30.map Prod.fst).Disjoint (bs.all90.map Prod.fst) ∧
  (bs.all60.map Prod.fst).Disjoint (bs.all90.map Prod.fst)

/-- The rational comparison of the bucketing condition reduces to an
integer comparison. -/
theorem gtCutoff_iff (ms cutoff : Int) : gtCutoff ms cutoff ↔ cutoff * 1000 < ms := by
  unfold gtCutoff
  rw [gt_iff_lt, lt_div_iff₀ (by norm_num : (0 : ℚ) < 1000)]
  exact_mod_cast Iff.rfl

/-- Case analysis on `_add_record`: either the dict is untouched (a
required key was missing) or exactly one entry was appended at `key`,
and any appended record has `Closed` and `Resolution` jointly present
or jointly absent. -/
theorem add_record_cases (d : Bucket) (r : RawCaseRecord) (k : Nat) :
    (add_record d r k).1 = d ∨
    ∃ rec : CaseRecord, (add_record d r k).1 = d ++ [(k, rec)] ∧
      (rec.Closed.isSome ↔ rec.Resolution.isSome) := by
  rcases r with ⟨t, o, sev, ca, ed, rs⟩
  cases t <;> cases o <;> cases sev <;> cases ca <;> cases ed <;> cases rs <;>
    simp [add_record]

/-- On a well-formed record `_add_record` succeeds, appends exactly one
entry, and gives the entry `Closed` and `Resolution` keys exactly when
the source record has an `endDate`. -/
theorem add_record_wf (d : Bucket) (r : RawCaseRecord) (k : Nat)
    (h : WellFormed r) :
    ∃ rec : CaseRecord, add_record d r k = (d ++ [(k, rec)], none) ∧
      rec.Closed.isSome = r.endDate.isSome ∧
      rec.Resolution.isSome = r.endDate.isSome := by
  obtain ⟨ht, ho, hs, hc, he⟩ := h
  rcases r with ⟨t, o, sev, ca, ed, rs⟩
  cases t <;> cases o <;> cases sev <;> cases ca <;> simp_all
  cases ed with
  | none => cases rs <;> simp [add_record]
  | some ed =>
    cases rs with
    | none => simp_all
    | some rs => simp [add_record]

theorem Inv_mono {bs : Buckets} {n m : Nat} (h : Inv bs n) (hnm : n ≤ m) :
    Inv bs m := by
  obtain ⟨hb, h1, h2, h3, h4, h5, h6⟩ := h
  exact ⟨fun k hk => lt_of_lt_of_le (hb k hk) hnm, h1, h2, h3, h4, h5, h6⟩

theorem bucketKeys30 (bs : Buckets) :
    bucketKeys bs = bs.all30.map Prod.fst ++ bs.all60.map Prod.fst ++
      bs.all90.map Prod.fst := by
  simp [bucketKeys, allPairs]

theorem pairwise_lt_append_singleton {ks : List Nat} {n : Nat}
    (h : ks.Pairwise (· < ·)) (hlt : ∀ k ∈ ks, k < n) :
    (ks ++ [n]).Pairwise (· < ·) := by
  rw [List.pairwise_append]
  exact ⟨h, List.pairwise_singleton _ _, fun a ha b hb => by
    rw [List.mem_singleton] at hb; subst hb; exact hlt a ha⟩

theorem disjoint_append_singleton_left {ks ls : List Nat} {n : Nat}
    (h : ks.Disjoint ls) (hn : n ∉ ls) : (ks ++ [n]).Disjoint ls := by
  intro a ha hb
  rcases List.mem_append.mp ha with ha | ha
  · exact h ha hb
  · rw [List.mem_singleton] at ha; subst ha; exact hn hb

theorem disjoint_append_singleton_right {ks ls : List Nat} {n : Nat}
    (h : ks.Disjoint ls) (hn : n ∉ ks) : ks.Disjoint (ls ++ [n]) := by
  intro a ha hb
  rcases List.mem_append.mp hb with hb | hb
  · exact h ha hb
  · rw [List.mem_singleton] at hb; subst hb; exact hn ha

theorem Inv_step30 {bs : Buckets} {n : Nat} (rec : CaseRecord)
    (h : Inv bs n) :
    Inv { bs with all30 := bs.all30 ++ [(n, rec)] } (n + 1) := by
  obtain ⟨hb, h1, h2, h3, h4, h5, h6⟩ := h
  rw [bucketKeys30] at hb
  have hb30 : ∀ k ∈ bs.all30.map Prod.fst, k < n := fun k hk =>
    hb k (by simp [hk])
  have hb60 : ∀ k ∈ bs.all60.map Prod.fst, k < n := fun k hk =>
    hb k (by simp [hk])
  have hb90 : ∀ k ∈ bs.all90.map Prod.fst, k < n := fun k hk =>
    hb k (by simp [hk])
  refine ⟨?_, ?_, h2, h3, ?_, ?_, h6⟩
  · intro k hk
    rw [bucketKeys30] at hk
    simp only [List.map_append, List.append_assoc, List.mem_append] at hk
    rcases hk with hk | hk | hk | hk
    · exact lt_of_lt_of_le (hb30 k hk) (Nat.le_succ n)
    · simp only [List.map_cons, List.map_nil, List.mem_singleton] at hk
      simp [hk]
    · exact lt_of_lt_of_le (hb60 k hk) (Nat.le_succ n)
    · exact lt_of_lt_of_le (hb90 k hk) (Nat.le_succ n)
  · simpa using pairwise_lt_append_singleton h1 hb30
  · simpa using disjoint_append_singleton_left h4
      (fun hn => lt_irrefl n (hb60 n hn))
  · simpa using disjoint_append_singleton_left h5
      (fun hn => lt_irrefl n (hb90 n hn))

theorem Inv_step60 {bs : Buckets} {n : Nat} (rec : CaseRecord)
    (h : Inv bs n) :
    Inv { bs with all60 := bs.all60 ++ [(n, rec)] } (n + 1) := by
  obtain ⟨hb, h1, h2, h3, h4, h5, h6⟩ := h
  rw [bucketKeys30] at hb
  have hb30 : ∀ k ∈ bs.all30.map Prod.fst, k < n := fun k hk =>
    hb k (by simp [hk])
  have hb60 : ∀ k ∈ bs.all60.map Prod.fst, k < n := fun k hk =>
    hb k (by simp [hk])
  have hb90 : ∀ k ∈ bs.all90.map Prod.fst, k < n := fun k hk =>
    hb k (by simp [hk])
  refine ⟨?_, h1, ?_, h3, ?_, h5, ?_⟩
  · intro k hk
    rw [bucketKeys30] at hk
    simp only [List.map_append, List.append_assoc, List.mem_append] at hk
    rcases hk with hk | hk | hk | hk
    · exact lt_of_lt_of_le (hb30 k hk) (Nat.le_succ n)
    · exact lt_of_lt_of_le (hb60 k hk) (Nat.le_succ n)
    · simp only [List.map_cons, List.map_nil, List.mem_singleton] at hk
      simp [hk]
    · exact lt_of_lt_of_le (hb90 k hk) (Nat.le_succ n)
  · simpa using pairwise_lt_append_singleton h2 hb60
  · simpa using disjoint_append_singleton_right h4
      (fun hn => lt_irrefl n (hb30 n hn))
  · simpa using disjoint_append_singleton_left h6
      (fun hn => lt_irrefl n (hb90 n hn))

theorem Inv_step90 {bs : Buckets} {n : Nat} (rec : CaseRecord)
    (h : Inv bs n) :
    Inv { bs with all90 := bs.all90 ++ [(n, rec)] } (n + 1) := by
  obtain ⟨hb, h1, h2, h3, h4, h5, h6⟩ := h
  rw [bucketKeys30] at hb
  have hb30 : ∀ k ∈ bs.all30.map Prod.fst, k < n := fun k hk =>
    hb k (by simp [hk])
  have hb60 : ∀ k ∈ bs.all60.map Prod.fst, k < n := fun k hk =>
    hb k (by simp [hk])
  have hb90 : ∀ k ∈ bs.all90.map Prod.fst, k < n := fun k hk =>
    hb k (by simp [hk])
  refine ⟨?_, h1, h2, ?_, h4, ?_, ?_⟩
  · intro k hk
    rw [bucketKeys30] at hk
    simp only [List.map_append, List.append_assoc, List.mem_append] at hk
    rcases hk with hk | hk | hk | hk
    · exact lt_of_lt_of_le (hb30 k hk) (Nat.le_succ n)
    · exact lt_of_lt_of_le (hb60 k hk) (Nat.le_succ n)
    · exact lt_of_lt_of_le (hb90 k hk) (Nat.le_succ n)
    · simp only [List.map_cons, List.map_nil, List.mem_singleton] at hk
      simp [hk]
  · simpa using pairwise_lt_append_singleton h3 hb90
  · simpa using disjoint_append_singleton_right h5
      (fun hn => lt_irrefl n (hb30 n hn))
  · simpa using disjoint_append_singleton_right h6
      (fun hn => lt_irrefl n (hb60 n hn))

/-- The bucketing loop preserves the structural invariant, advancing the
bound by the number of records walked, whether or not an error stops it. -/
theorem fillGo_inv (c30 c60 : Int) :
    ∀ (l : List RawCaseRecord) (n : Nat) (bs : Buckets), Inv bs n →
      Inv (fillGo c30 c60 l n bs).1 (n + l.length) := by
  intro l
  induction l with
  | nil => intro n bs h; exact h
  | cons record rest ih =>
    intro n bs h
    have harith : n + (record :: rest).length = (n + 1) + rest.length := by
      simp [List.length_cons]; omega
    rw [harith]
    cases hca : record.createdAt with
    | none =>
      simp only [fillGo, hca]
      exact Inv_mono h (by omega)
    | some ca =>
      simp only [fillGo, hca]
      by_cases h30 : gtCutoff ca c30
      · rw [if_pos h30]
        rcases hadd : add_record bs.all30 record n with ⟨d, e⟩
        have hcases := add_record_cases bs.all30 record n
        rw [hadd] at hcases
        simp only at hcases
        have hinv : Inv { bs with all30 := d } (n + 1) := by
          rcases hcases with hd | ⟨rec, hd, -⟩
          · rw [hd]; exact Inv_mono h (Nat.le_succ n)
          · rw [hd]; exact Inv_step30 rec h
        cases e with
        | some e => exact Inv_mono hinv (by omega)
        | none => exact ih (n + 1) { bs with all30 := d } hinv
      · rw [if_neg h30]
        by_cases h60 : gtCutoff ca c60
        · rw [if_pos h60]
          rcases hadd : add_record bs.all60 record n with ⟨d, e⟩
          have hcases := add_record_cases bs.all60 record n
          rw [hadd] at hcases
          simp only at hcases
          have hinv : Inv { bs with all60 := d } (n + 1) := by
            rcases hcases with hd | ⟨rec, hd, -⟩
            · rw [hd]; exact Inv_mono h (Nat.le_succ n)
            · rw [hd]; exact Inv_step60 rec h
          cases e with
          | some e => exact Inv_mono hinv (by omega)
          | none => exact ih (n + 1) { bs with all60 := d } hinv
        · rw [if_neg h60]
          rcases hadd : add_record bs.all90 record n with ⟨d, e⟩
          have hcases := add_record_cases bs.all90 record n
          rw [hadd] at hcases
          simp only at hcases
          have hinv : Inv { bs with all90 := d } (n + 1) := by
            rcases hcases with hd | ⟨rec, hd, -⟩
            · rw [hd]; exact Inv_mono h (Nat.le_succ n)
            · rw [hd]; exact Inv_step90 rec h
          cases e with
          | some e => exact Inv_mono hinv (by omega)
          | none => exact ih (n + 1) { bs with all90 := d } hinv

/-- On all-well-formed input the bucketing loop finishes without error
and grows the combined bucket size by exactly the number of records. -/
theorem fillGo_wf (c30 c60 : Int) :
    ∀ (l : List RawCaseRecord) (n : Nat) (bs : Buckets),
      (∀ r ∈ l, WellFormed r) →
      (fillGo c30 c60 l n bs).2 = none ∧
      totalLen (fillGo c30 c60 l n bs).1 = totalLen bs + l.length := by
  intro l
  induction l with
  | nil => intro n bs _; exact ⟨rfl, rfl⟩
  | cons record rest ih =>
    intro n bs hwf
    have hhead : WellFormed record := hwf record (List.mem_cons_self record rest)
    have htail : ∀ r ∈ rest, WellFormed r := fun r hr =>
      hwf r (List.mem_cons_of_mem record hr)
    have hc : record.createdAt.isSome := hhead.2.2.2.1
    rcases hca : record.createdAt with - | ca
    · rw [hca] at hc; simp at hc
    · simp only [fillGo, hca]
      by_cases h30 : gtCutoff ca c30
      · rw [if_pos h30]
        obtain ⟨rec, hadd, -, -⟩ := add_record_wf bs.all30 record n hhead
        rw [hadd]
        have := ih (n + 1) { bs with all30 := bs.all30 ++ [(n, rec)] } htail
        refine ⟨this.1, ?_⟩
        rw [this.2]
        simp [totalLen, List.length_cons]
        omega
      · rw [if_neg h30]
        by_cases h60 : gtCutoff ca c60
        · rw [if_pos h60]
          obtain ⟨rec, hadd, -, -⟩ := add_record_wf bs.all60 record n hhead
          rw [hadd]
          have := ih (n + 1) { bs with all60 := bs.all60 ++ [(n, rec)] } htail
          refine ⟨this.1, ?_⟩
          rw [this.2]
          simp [totalLen, List.length_cons]
          omega
        · rw [if_neg h60]
          obtain ⟨rec, hadd, -, -⟩ := add_record_wf bs.all90 record n hhead
          rw [hadd]
          have := ih (n + 1) { bs with all90 := bs.all90 ++ [(n, rec)] } htail
          refine ⟨this.1, ?_⟩
          rw [this.2]
          simp [totalLen, List.length_cons]
          omega

theorem mem_allPairs_step30 {bs : Buckets} {p : Nat × CaseRecord} {n : Nat}
    {rec : CaseRecord}
    (h : p ∈ allPairs { bs with all30 := bs.all30 ++ [(n, rec)] }) :
    p ∈ allPairs bs ∨ p = (n, rec) := by
  simp only [allPairs, List.append_assoc, List.mem_append,
    List.mem_singleton] at h ⊢
  tauto

theorem mem_allPairs_step60 {bs : Buckets} {p : Nat × CaseRecord} {n : Nat}
    {rec : CaseRecord}
    (h : p ∈ allPairs { bs with all60 := bs.all60 ++ [(n, rec)] }) :
    p ∈ allPairs bs ∨ p = (n, rec) := by
  simp only [allPairs, List.append_assoc, List.mem_append,
    List.mem_singleton] at h ⊢
  tauto

theorem mem_allPairs_step90 {bs : Buckets} {p : Nat × CaseRecord} {n : Nat}
    {rec : CaseRecord}
    (h : p ∈ allPairs { bs with all90 := bs.all90 ++ [(n, rec)] }) :
    p ∈ allPairs bs ∨ p = (n, rec) := by
  simp only [allPairs, List.append_assoc, List.mem_append,
    List.mem_singleton] at h ⊢
  tauto

/-- Any record present in the buckets after the loop was either there
before or was written by `_add_record`, and every record `_add_record`
writes has `Closed` and `Resolution` jointly present or jointly absent. -/
theorem fillGo_mem (c30 c60 : Int) :
    ∀ (l : List RawCaseRecord) (n : Nat) (bs : Buckets) (p : Nat × CaseRecord),
      p ∈ allPairs (fillGo c30 c60 l n bs).1 →
      p ∈ allPairs bs ∨ (p.2.Closed.isSome ↔ p.2.Resolution.isSome) := by
  intro l
  induction l with
  | nil => intro n bs p h; exact Or.inl h
  | cons record rest ih =>
    intro n bs p h
    rcases hca : record.createdAt with - | ca
    · simp only [fillGo, hca] at h; exact Or.inl h
    · simp only [fillGo, hca] at h
      by_cases h30 : gtCutoff ca c30
      · rw [if_pos h30] at h
        rcases hadd : add_record bs.all30 record n with ⟨d, e⟩
        have hcases := add_record_cases bs.all30 record n
        rw [hadd] at hcases
        simp only at hcases
        rw [hadd] at h
        have hmem : p ∈ allPairs { bs with all30 := d } →
            p ∈ allPairs bs ∨ (p.2.Closed.isSome ↔ p.2.Resolution.isSome) := by
          intro hp
          rcases hcases with hd | ⟨rec, hd, hiff⟩
          · rw [hd] at hp; exact Or.inl hp
          · rw [hd] at hp
            rcases mem_allPairs_step30 hp with hp | hp
            · exact Or.inl hp
            · right; rw [hp]; exact hiff
        cases e with
        | some e => exact hmem h
        | none =>
          rcases ih (n + 1) { bs with all30 := d } p h with hp | hp
          · exact hmem hp
          · exact Or.inr hp
      · rw [if_neg h30] at h
        by_cases h60 : gtCutoff ca c60
        · rw [if_pos h60] at h
          rcases hadd : add_record bs.all60 record n with ⟨d, e⟩
          have hcases := add_record_cases bs.all60 record n
          rw [hadd] at hcases
          simp only at hcases
          rw [hadd] at h
          have hmem : p ∈ allPairs { bs with all60 := d } →
              p ∈ allPairs bs ∨ (p.2.Closed.isSome ↔ p.2.Resolution.isSome) := by
            intro hp
            rcases hcases with hd | ⟨rec, hd, hiff⟩
            · rw [hd] at hp; exact Or.inl hp
            · rw [hd] at hp
              rcases mem_allPairs_step60 hp with hp | hp
              · exact Or.inl hp
              · right; rw [hp]; exact hiff
          cases e with
          | some e => exact hmem h
          | none =>
            rcases ih (n + 1) { bs with all60 := d } p h with hp | hp
            · exact hmem hp
            · exact Or.inr hp
        · rw [if_neg h60] at h
          rcases hadd : add_record bs.all90 record n with ⟨d, e⟩
          have hcases := add_record_cases bs.all90 record n
          rw [hadd] at hcases
          simp only at hcases
          rw [hadd] at h
          have hmem : p ∈ allPairs { bs with all90 := d } →
              p ∈ allPairs bs ∨ (p.2.Closed.isSome ↔ p.2.Resolution.isSome) := by
            intro hp
            rcases hcases with hd | ⟨rec, hd, hiff⟩
            · rw [hd] at hp; exact Or.inl hp
            · rw [hd] at hp
              rcases mem_allPairs_step90 hp with hp | hp
              · exact Or.inl hp
              · right; rw [hp]; exact hiff
          cases e with
          | some e => exact hmem h
          | none =>
            rcases ih (n + 1) { bs with all90 := d } p h with hp | hp
            · exact hmem hp
            · exact Or.inr hp

theorem bucketKeys_sub30 {bs : Buckets} {d : Bucket} {n : Nat}
    (hcases : d = bs.all30 ∨ ∃ rec, d = bs.all30 ++ [(n, rec)] ∧
      (rec.Closed.isSome ↔ rec.Resolution.isSome)) :
    ∀ k ∈ bucketKeys { bs with all30 := d }, k ∈ bucketKeys bs ∨ k = n := by
  intro k hk
  rcases hcases with hd | ⟨rec, hd, -⟩ <;> subst hd <;>
    · revert hk
      simp only [bucketKeys, allPairs, List.map_append, List.append_assoc,
        List.mem_append, List.map_cons, List.map_nil, List.mem_singleton]
      tauto

theorem bucketKeys_sub60 {bs : Buckets} {d : Bucket} {n : Nat}
    (hcases : d = bs.all60 ∨ ∃ rec, d = bs.all60 ++ [(n, rec)] ∧
      (rec.Closed.isSome ↔ rec.Resolution.isSome)) :
    ∀ k ∈ bucketKeys { bs with all60 := d }, k ∈ bucketKeys bs ∨ k = n := by
  intro k hk
  rcases hcases with hd | ⟨rec, hd, -⟩ <;> subst hd <;>
    · revert hk
      simp only [bucketKeys, allPairs, List.map_append, List.append_assoc,
        List.mem_append, List.map_cons, List.map_nil, List.mem_singleton]
      tauto

theorem bucketKeys_sub90 {bs : Buckets} {d : Bucket} {n : Nat}
    (hcases : d = bs.all90 ∨ ∃ rec, d = bs.all90 ++ [(n, rec)] ∧
      (rec.Closed.isSome ↔ rec.Resolution.isSome)) :
    ∀ k ∈ bucketKeys { bs with all90 := d }, k ∈ bucketKeys bs ∨ k = n := by
  intro k hk
  rcases hcases with hd | ⟨rec, hd, -⟩ <;> subst hd <;>
    · revert hk
      simp only [bucketKeys, allPairs, List.map_append, List.append_assoc,
        List.mem_append, List.map_cons, List.map_nil, List.mem_singleton]
      tauto

/-- When the record at position `pre.length` of the remaining input has
no `createdAt`, the loop stops with an error, and every key present
afterwards is below `n + pre.length`; in particular the ingestion index
of the malformed record is in no bucket. -/
theorem fillGo_missing (c30 c60 : Int) (r : RawCaseRecord)
    (post : List RawCaseRecord) (hr : r.createdAt = none) :
    ∀ (pre : List RawCaseRecord) (n : Nat) (bs : Buckets),
      (∀ k ∈ bucketKeys bs, k < n) →
      (fillGo c30 c60 (pre ++ r :: post) n bs).2.isSome ∧
      ∀ k ∈ bucketKeys (fillGo c30 c60 (pre ++ r :: post) n bs).1,
        k < n + pre.length := by
  intro pre
  induction pre with
  | nil =>
    intro n bs hb
    simp only [List.nil_append, fillGo, hr]
    exact ⟨rfl, fun k hk => by simpa using hb k hk⟩
  | cons record rest ih =>
    intro n bs hb
    have harith : n + (record :: rest).length = (n + 1) + rest.length := by
      simp [List.length_cons]; omega
    rw [harith]
    rcases hca : record.createdAt with - | ca
    · simp only [List.cons_append, fillGo, hca]
      exact ⟨rfl, fun k hk => by
        have := hb k hk
        omega⟩
    · simp only [List.cons_append, fillGo, hca]
      by_cases h30 : gtCutoff ca c30
      · rw [if_pos h30]
        rcases hadd : add_record bs.all30 record n with ⟨d, e⟩
        have hcases := add_record_cases bs.all30 record n
        rw [hadd] at hcases
        simp only at hcases
        have hb' : ∀ k ∈ bucketKeys { bs with all30 := d }, k < n + 1 := by
          intro k hk
          rcases bucketKeys_sub30 hcases k hk with hk | hk
          · exact lt_of_lt_of_le (hb k hk) (Nat.le_succ n)
          · omega
        cases e with
        | some e =>
          refine ⟨rfl, fun k hk => ?_⟩
          have := hb' k hk
          omega
        | none =>
          obtain ⟨h1, h2⟩ := ih (n + 1) { bs with all30 := d } hb'
          exact ⟨h1, h2⟩
      · rw [if_neg h30]
        by_cases h60 : gtCutoff ca c60
        · rw [if_pos h60]
          rcases hadd : add_record bs.all60 record n with ⟨d, e⟩
          have hcases := add_record_cases bs.all60 record n
          rw [hadd] at hcases
          simp only at hcases
          have hb' : ∀ k ∈ bucketKeys { bs with all60 := d }, k < n + 1 := by
            intro k hk
            rcases bucketKeys_sub60 hcases k hk with hk | hk
            · exact lt_of_lt_of_le (hb k hk) (Nat.le_succ n)
            · omega
          cases e with
          | some e =>
            refine ⟨rfl, fun k hk => ?_⟩
            have := hb' k hk
            omega
          | none =>
            obtain ⟨h1, h2⟩ := ih (n + 1) { bs with all60 := d } hb'
            exact ⟨h1, h2⟩
        · rw [if_neg h60]
          rcases hadd : add_record bs.all90 record n with ⟨d, e⟩
          have hcases := add_record_cases bs.all90 record n
          rw [hadd] at hcases
          simp only at hcases
          have hb' : ∀ k ∈ bucketKeys { bs with all90 := d }, k < n + 1 := by
            intro k hk
            rcases bucketKeys_sub90 hcases k hk with hk | hk
            · exact lt_of_lt_of_le (hb k hk) (Nat.le_succ n)
            · omega
          cases e with
          | some e =>
            refine ⟨rfl, fun k hk => ?_⟩
            have := hb' k hk
            omega
          | none =>
            obtain ⟨h1, h2⟩ := ih (n + 1) { bs with all90 := d } hb'
            exact ⟨h1, h2⟩

theorem Inv_init : Inv ⟨[], [], []⟩ 0 := by
  refine ⟨?_, ?_, ?_, ?_, ?_, ?_, ?_⟩ <;> simp [bucketKeys, allPairs]

/-- The invariant yields distinctness of the combined key list: keys are
unique inside each bucket and shared by no two buckets. -/
theorem Inv_nodup {bs : Buckets} {n : Nat} (h : Inv bs n) :
    (bucketKeys bs).Nodup := by
  obtain ⟨-, h1, h2, h3, h4, h5, h6⟩ := h
  have n30 : (bs.all30.map Prod.fst).Nodup := h1.imp (fun hab => Nat.ne_of_lt hab)
  have n60 : (bs.all60.map Prod.fst).Nodup := h2.imp (fun hab => Nat.ne_of_lt hab)
  have n90 : (bs.all90.map Prod.fst).Nodup := h3.imp (fun hab => Nat.ne_of_lt hab)
  rw [bucketKeys30, List.append_assoc, List.nodup_append]
  refine ⟨n30, ?_, ?_⟩
  · rw [List.nodup_append]
    exact ⟨n60, n90, h6⟩
  · rw [List.disjoint_append_right]
    exact ⟨h4, h5⟩

/-- Looking up a label present in the index of a frame built by mapping
a row function over the index returns that row. -/
theorem lookupRow_map (f : Label → CountsRow) :
    ∀ (L : List Label) (l : Label), l ∈ L →
      lookupRow (L.map (fun x => (x, f x))) l = some (f l) := by
  intro L
  induction L with
  | nil => intro l hl; simp at hl
  | cons a L ih =>
    intro l hl
    by_cases hal : a = l
    · subst hal
      simp [lookupRow, List.find?]
    · have hl' : l ∈ L := by
        rcases List.mem_cons.mp hl with h | h
        · exact absurd h.symm hal
        · exact h
      have := ih l hl'
      simp only [lookupRow, List.map_cons, List.find?] at this ⊢
      rw [show (decide ((a, f a).1 = l)) = false by simpa using hal]
      exact this

/-- C1 (counterexample): the partition property fails when only a
numeric `createdAt` is assumed. Both records below carry a numeric
`createdAt`, but the first has an `endDate` with no `resolutionStatus`,
so the loop aborts on it and the second record lands in no bucket: the
buckets hold one record, not two. -/
theorem claim_C1_counterexample :
    (∀ r ∈ ([⟨some "Case A", some "alice", some 2, some 2000000, some 2100000, none⟩,
             ⟨some "Case B", some "bob", some 1, some 2000000, none, none⟩] :
        List RawCaseRecord), r.createdAt.isSome) ∧
    totalLen (fill_day_dicts 1000 0
      [⟨some "Case A", some "alice", some 2, some 2000000, some 2100000, none⟩,
       ⟨some "Case B", some "bob", some 1, some 2000000, none, none⟩]).1 ≠ 2 := by
  decide

/-- C1 (amended): for every input sequence of well-formed raw records
(all of `title`, `owner`, `severity` and a numeric `createdAt` present,
and `resolutionStatus` present whenever `endDate` is), bucketing
assigns each record to exactly one of the three window dictionaries: no
error is raised, the sum of the three bucket sizes equals the input
size, the combined key list has no duplicate (so the key sets are
pairwise disjoint and no record overwrites another), and every key is
an ingestion index of the input. -/
theorem claim_C1 (c30 c60 : Int) (dataset : List RawCaseRecord)
    (h : ∀ r ∈ dataset, WellFormed r) :
    (fill_day_dicts c30 c60 dataset).2 = none ∧
    totalLen (fill_day_dicts c30 c60 dataset).1 = dataset.length ∧
    (bucketKeys (fill_day_dicts c30 c60 dataset).1).Nodup ∧
    ∀ k ∈ bucketKeys (fill_day_dicts c30 c60 dataset).1, k < dataset.length := by
  have hwf := fillGo_wf c30 c60 dataset 0 ⟨[], [], []⟩ h
  have hinv := fillGo_inv c30 c60 dataset 0 ⟨[], [], []⟩ Inv_init
  refine ⟨hwf.1, ?_, Inv_nodup hinv, ?_⟩
  · have := hwf.2
    simpa [fill_day_dicts, totalLen] using this
  · intro k hk
    have := hinv.1 k hk
    simpa using this

/-- C1 (witness): the amended theorem applied to a concrete singleton
dataset. -/
theorem claim_C1_witness :
    (fill_day_dicts 1000 0
      [⟨some "Case B", some "bob", some 1, some 2000000, none, none⟩]).2 = none :=
  (claim_C1 1000 0 [⟨some "Case B", some "bob", some 1, some 2000000, none, none⟩]
    (by decide)).1

/-- C2: for every Within30 bucket given to aggregation, the `totals`
row exists and its `Created` cell is the bucket size, its `Closed` cell
is the number of records with a `Closed` field present, and `Closed`
never exceeds `Created`. -/
theorem claim_C2 (b30 : Bucket) :
    ∃ row : CountsRow,
      lookupRow (make_dataframes_counts b30) (Label.str "totals") = some row ∧
      row.Created = b30.length ∧
      row.Closed = b30.countP (fun p => p.2.Closed.isSome) ∧
      row.Closed ≤ row.Created := by
  refine ⟨countsRowFor b30 (Label.str "totals"),
    lookupRow_map (countsRowFor b30) counts_frame_INDEX (Label.str "totals")
      (by decide), ?_, ?_, ?_⟩
  · simp [countsRowFor]
  · simp [countsRowFor]
  · simp only [countsRowFor, if_pos]
    exact List.countP_le_length _

/-- C5: aggregating the empty Within30 bucket succeeds (the aggregation
is total) and yields the summary in which every reserved row label of
the fixed index appears with every cell equal to zero. -/
theorem claim_C5 :
    make_dataframes_counts ([] : Bucket) =
      counts_frame_INDEX.map (fun l => (l, ⟨0, 0, 0, 0, 0⟩)) ∧
    ∀ l ∈ counts_frame_INDEX,
      lookupRow (make_dataframes_counts ([] : Bucket)) l =
        some ⟨0, 0, 0, 0, 0⟩ := by
  decide

/-- C7: a raw record with an `endDate` field but no `resolutionStatus`
field makes normalization fail with a MalformedRecordError (the missing
`resolutionStatus` key) instead of defaulting the resolution value. -/
theorem claim_C7 (days_dict : Bucket) (record : RawCaseRecord) (key : Nat)
    (h1 : record.endDate.isSome) (h2 : record.resolutionStatus = none) :
    (add_record days_dict record key).2.isSome := by
  rcases record with ⟨t, o, sev, ca, ed, rs⟩
  cases t <;> cases o <;> cases sev <;> cases ca <;> cases ed <;> cases rs <;>
    simp_all [add_record]

/-- C7 (witness): the theorem applied to a concrete closed-without-
resolution record. -/
theorem claim_C7_witness :
    (add_record [] ⟨some "Case", some "alice", some 2, some 0, some 0, none⟩ 0).2.isSome :=
  claim_C7 [] ⟨some "Case", some "alice", some 2, some 0, some 0, none⟩ 0
    (by decide) rfl

/-- C8: a raw record with no `createdAt` makes processing stop with a
MalformedRecordError, and its ingestion index appears in none of the
three window buckets. -/
theorem claim_C8 (c30 c60 : Int) (pre post : List RawCaseRecord)
    (r : RawCaseRecord) (hr : r.createdAt = none) :
    (fill_day_dicts c30 c60 (pre ++ r :: post)).2.isSome ∧
    pre.length ∉ bucketKeys (fill_day_dicts c30 c60 (pre ++ r :: post)).1 := by
  obtain ⟨h1, h2⟩ := fillGo_missing c30 c60 r post hr pre 0 ⟨[], [], []⟩
    (by simp [bucketKeys, allPairs])
  refine ⟨h1, fun hk => ?_⟩
  have := h2 pre.length hk
  omega

/-- C8 (witness): the theorem applied to the singleton dataset holding
one record with every field absent. -/
theorem claim_C8_witness :
    (fill_day_dicts 0 0 [⟨none, none, none, none, none, none⟩]).2.isSome ∧
    0 ∉ bucketKeys (fill_day_dicts 0 0 [⟨none, none, none, none, none, none⟩]).1 :=
  claim_C8 0 0 [] [] ⟨none, none, none, none, none, none⟩ rfl

/-- C3 (counterexample): the owner value "alice" occurs in the bucket,
but the counts summary has no row for it: the fixed index of the counts
frame drops every owner outside the reserved label set. -/
theorem claim_C3_counterexample :
    (([(0, ⟨"Case", "alice", 2, "01/01/1970 00:00:00", none, none⟩)] : Bucket).countP
      (fun p => decide (p.2.Owner = "alice")) = 1) ∧
    lookupRow (make_dataframes_counts
      [(0, ⟨"Case", "alice", 2, "01/01/1970 00:00:00", none, none⟩)])
      (Label.str "alice") = none := by
  decide

/-- C3 (amended): the Owner column is the owner frequency table
restricted to the fixed row-label set: every distinct owner value that
occurs in the bucket and is one of the fixed labels appears with its
count; owner values outside the fixed label set are dropped. -/
theorem claim_C3 (b30 : Bucket) (o : String)
    (h : Label.str o ∈ counts_frame_INDEX) :
    ∃ row : CountsRow,
      lookupRow (make_dataframes_counts b30) (Label.str o) = some row ∧
      row.Owner = b30.countP (fun p => decide (p.2.Owner = o)) := by
  refine ⟨countsRowFor b30 (Label.str o),
    lookupRow_map (countsRowFor b30) counts_frame_INDEX (Label.str o) h, ?_⟩
  simp only [countsRowFor]
  apply List.countP_congr
  intro p hp
  simp

/-- C3 (witness): the amended theorem applied to a bucket whose owner
is the reserved label Team.Member1. -/
theorem claim_C3_witness :
    ∃ row : CountsRow,
      lookupRow (make_dataframes_counts
        [(0, ⟨"Case", "Team.Member1", 2, "01/01/1970 00:00:00", none, none⟩)])
        (Label.str "Team.Member1") = some row ∧
      row.Owner = ([(0, ⟨"Case", "Team.Member1", 2, "01/01/1970 00:00:00",
          none, none⟩)] : Bucket).countP
        (fun p => decide (p.2.Owner = "Team.Member1")) :=
  claim_C3 [(0, ⟨"Case", "Team.Member1", 2, "01/01/1970 00:00:00", none, none⟩)]
    "Team.Member1" (by decide)

/-- C4 (counterexample): with cutoffs 10000 and 0 epoch seconds, the
record created at 9999000 ms, one second EARLIER than the 30-day
cutoff, lands in Within60 (the claim says Within30), and the record
created at 10001000 ms, one second LATER than the cutoff, lands in
Within30 (the claim says Within60). -/
theorem claim_C4_counterexample :
    ((fill_day_dicts 10000 0
        [⟨some "Case", some "alice", some 1, some 9999000, none, none⟩]).1.all30 = [] ∧
     (fill_day_dicts 10000 0
        [⟨some "Case", some "alice", some 1, some 9999000, none, none⟩]).1.all60.length = 1) ∧
    ((fill_day_dicts 10000 0
        [⟨some "Case", some "alice", some 1, some 10001000, none, none⟩]).1.all60 = [] ∧
     (fill_day_dicts 10000 0
        [⟨some "Case", some "alice", some 1, some 10001000, none, none⟩]).1.all30.length = 1) := by
  decide

/-- C4 (amended): a record timestamped exactly one second EARLIER than
the today-minus-30-days cutoff is assigned to the Within60 bucket, and
a record exactly one second LATER than that cutoff is assigned to the
Within30 bucket (the boundary itself is excluded from Within30 by the
strict "after" comparison). -/
theorem claim_C4 (c30 c60 : Int) (h : c60 < c30 - 1) (t o : String) (sev : Int) :
    ((fill_day_dicts c30 c60
        [⟨some t, some o, some sev, some ((c30 - 1) * 1000), none, none⟩]).1.all60.length = 1 ∧
     (fill_day_dicts c30 c60
        [⟨some t, some o, some sev, some ((c30 - 1) * 1000), none, none⟩]).1.all30 = []) ∧
    ((fill_day_dicts c30 c60
        [⟨some t, some o, some sev, some ((c30 + 1) * 1000), none, none⟩]).1.all30.length = 1 ∧
     (fill_day_dicts c30 c60
        [⟨some t, some o, some sev, some ((c30 + 1) * 1000), none, none⟩]).1.all60 = []) := by
  have h30e : ¬ gtCutoff ((c30 - 1) * 1000) c30 := by
    rw [gtCutoff_iff]; omega
  have h60e : gtCutoff ((c30 - 1) * 1000) c60 := by
    rw [gtCutoff_iff]; omega
  have h30l : gtCutoff ((c30 + 1) * 1000) c30 := by
    rw [gtCutoff_iff]; omega
  constructor
  · simp only [fill_day_dicts, fillGo]
    rw [if_neg h30e, if_pos h60e]
    simp [fillGo, add_record]
  · simp only [fill_day_dicts, fillGo]
    rw [if_pos h30l]
    simp [fillGo, add_record]

/-- C4 (witness): the amended theorem at concrete cutoffs 1000 and 0. -/
theorem claim_C4_witness :
    ((fill_day_dicts 1000 0
        [⟨some "a", some "b", some 1, some ((1000 - 1) * 1000), none, none⟩]).1.all60.length = 1 ∧
     (fill_day_dicts 1000 0
        [⟨some "a", some "b", some 1, some ((1000 - 1) * 1000), none, none⟩]).1.all30 = []) ∧
    ((fill_day_dicts 1000 0
        [⟨some "a", some "b", some 1, some ((1000 + 1) * 1000), none, none⟩]).1.all30.length = 1 ∧
     (fill_day_dicts 1000 0
        [⟨some "a", some "b", some 1, some ((1000 + 1) * 1000), none, none⟩]).1.all60 = []) :=
  claim_C4 1000 0 (by decide) "a" "b" 1

/-- C6: every normalized record reachable in any bucket of the pipeline
output has its `Closed` field present exactly when its `Resolution`
field is present, and on every successful normalization both are
present exactly when the source record has an `endDate`. -/
theorem claim_C6 (c30 c60 : Int) (dataset : List RawCaseRecord) :
    (∀ p ∈ allPairs (fill_day_dicts c30 c60 dataset).1,
      (p.2.Closed.isSome ↔ p.2.Resolution.isSome)) ∧
    (∀ (d : Bucket) (r : RawCaseRecord) (k : Nat) (rec : CaseRecord),
      add_record d r k = (d ++ [(k, rec)], none) →
      rec.Closed.isSome = r.endDate.isSome ∧
      rec.Resolution.isSome = r.endDate.isSome) := by
  constructor
  · intro p hp
    rcases fillGo_mem c30 c60 dataset 0 ⟨[], [], []⟩ p hp with hp' | hp'
    · simp [allPairs] at hp'
    · exact hp'
  · intro d r k rec hadd
    rcases r with ⟨t, o, sev, ca, ed, rs⟩
    cases t <;> cases o <;> cases sev <;> cases ca <;> cases ed <;> cases rs <;>
      simp_all [add_record] <;> subst hadd <;> simp

/-- C6 (witness): the first conjunct applied to a concrete open record
placed in the 30-day bucket. -/
theorem claim_C6_witness :
    ((⟨"Case B", "bob", 1, strftimeGm (Int.fdiv 2000000 1000), none, none⟩ :
        CaseRecord).Closed.isSome ↔
      (⟨"Case B", "bob", 1, strftimeGm (Int.fdiv 2000000 1000), none, none⟩ :
        CaseRecord).Resolution.isSome) :=
  (claim_C6 1000 0 [⟨some "Case B", some "bob", some 1, some 2000000, none, none⟩]).1
    (0, ⟨"Case B", "bob", 1, strftimeGm (Int.fdiv 2000000 1000), none, none⟩)
    (by decide)

/-- C9 (counterexample): the per-window sheet columns are not in the
order `[Name, Owner, Severity, Created, Closed, Resolution]` that the
claim states; the frame index puts `Created` first. -/
theorem claim_C9_counterexample :
    (data_frame_days ([] : Bucket)).columns ≠
      ["Name", "Owner", "Severity", "Created", "Closed", "Resolution"] := by
  decide

/-- C9 (amended): every per-window sheet has its columns exactly in the
order `[Created, Severity, Owner, Name, Closed, Resolution]` (the order
of `data_frame_INDEX`), its rows keyed and ordered by the bucket's
record keys (pipeline buckets have strictly increasing keys), and an
absent `Closed` or `Resolution` value renders as an empty cell. -/
theorem claim_C9 (c30 c60 : Int) (dataset : List RawCaseRecord) :
    (∀ b : Bucket, (data_frame_days b).columns =
      ["Created", "Severity", "Owner", "Name", "Closed", "Resolution"]) ∧
    (∀ b : Bucket, (data_frame_days b).rows.map Prod.fst = b.map Prod.fst) ∧
    ((fill_day_dicts c30 c60 dataset).1.all30.map Prod.fst).Pairwise (· < ·) ∧
    ((fill_day_dicts c30 c60 dataset).1.all60.map Prod.fst).Pairwise (· < ·) ∧
    ((fill_day_dicts c30 c60 dataset).1.all90.map Prod.fst).Pairwise (· < ·) ∧
    (∀ rec : CaseRecord,
      (rec.Closed = none → cellOf rec "Closed" = "") ∧
      (rec.Resolution = none → cellOf rec "Resolution" = "")) := by
  have hinv := fillGo_inv c30 c60 dataset 0 ⟨[], [], []⟩ Inv_init
  refine ⟨fun b => rfl, fun b => ?_, hinv.2.1, hinv.2.2.1, hinv.2.2.2.1,
    fun rec => ⟨?_, ?_⟩⟩
  · simp [data_frame_days]
  · intro hcl; simp [cellOf, hcl]
  · intro hre; simp [cellOf, hre]

/-- C9 (witness): empty-cell rendering of an absent Closed value. -/
theorem claim_C9_witness :
    cellOf ⟨"n", "o", 1, "c", none, none⟩ "Closed" = "" :=
  ((claim_C9 0 0 []).2.2.2.2.2 ⟨"n", "o", 1, "c", none, none⟩).1 rfl

/-- C10: the counts summary's row set is exactly the fixed 14-label
index; a label outside the fixed set has no row (observed owner,
resolution or severity values outside the set are dropped), and only
the rows labelled with the integers 1, 2, 3 can hold a nonzero
Severity count. -/
theorem claim_C10 (b30 : Bucket) :
    ((make_dataframes_counts b30).map Prod.fst = counts_frame_INDEX) ∧
    (∀ l : Label, l ∉ counts_frame_INDEX →
      lookupRow (make_dataframes_counts b30) l = none) ∧
    (∀ q ∈ make_dataframes_counts b30, q.2.Severity ≠ 0 →
      q.1 = Label.int 1 ∨ q.1 = Label.int 2 ∨ q.1 = Label.int 3) := by
  refine ⟨?_, ?_, ?_⟩
  · rw [make_dataframes_counts, List.map_map]
    have hid : ∀ a ∈ counts_frame_INDEX,
        (Prod.fst ∘ fun l => (l, countsRowFor b30 l)) a = id a := fun a ha => rfl
    rw [List.map_congr_left hid, List.map_id]
  · intro l hl
    have hf : (make_dataframes_counts b30).find? (fun p => decide (p.1 = l)) = none := by
      rw [List.find?_eq_none]
      intro x hx
      simp only [make_dataframes_counts, List.mem_map] at hx
      obtain ⟨a, ha, rfl⟩ := hx
      simp only [decide_eq_true_eq]
      exact fun hal => hl (hal ▸ ha)
    simp only [lookupRow, hf, Option.map_none']
  · intro q hq hs
    simp only [make_dataframes_counts, List.mem_map] at hq
    obtain ⟨a, ha, rfl⟩ := hq
    simp only [counts_frame_INDEX] at ha
    fin_cases ha <;> simp_all [countsRowFor, List.countP_eq_zero]

/-- C10 (witness): the row label set at the empty bucket. -/
theorem claim_C10_witness :
    (make_dataframes_counts ([] : Bucket)).map Prod.fst = counts_frame_INDEX :=
  (claim_C10 []).1

end SIRPPipeline
